import Mathlib

/-!
Shallow embedding of the client resilience layer of the repository
(cache manager, offline mutation queue, sync coordinator, realtime
transport client) and proofs of the specified properties.

Sources embedded:
  * `packages/core/src/cache/sync-manager.ts` — `SyncManager`
  * `packages/core/src/cache/offline-queue.ts` — `OfflineQueue`
  * `packages/core/src/cache/manager.ts` — `CacheManager`
  * `packages/core/src/types/index.ts` — `JarvisApiClient` (transport part)

Modelling conventions: timestamps are `Nat`; JavaScript `undefined`-able
fields are `Option`; promise-returning collaborators (`fetchRemote`,
`saveRemote`, action handlers, the persistent store) are oracles of type
`Except String _` — a `.error` value is a rejected promise; event emission
and collaborator invocations are made observable by returning them
alongside the new state.
-/

namespace Resilience

/-! ## Sync coordinator (`sync-manager.ts`) -/

/-- `SyncableEntity` from `sync-manager.ts`, with a payload `α` standing for
the entity-specific fields.  `syncedAt` and `isLocal` are optional in the
TypeScript interface, hence `Option`. -/
structure SyncableEntity (α : Type) where
  id : String
  updatedAt : Nat
  syncedAt : Option Nat
  isLocal : Option Bool
  data : α
  deriving Repr, DecidableEq

/-- The four conflict strategies of `ConflictResolution.strategy`. -/
inductive Strategy where
  | localS | remoteS | merge | manual
  deriving Repr, DecidableEq

/-- `ConflictResolution` from `sync-manager.ts`: a strategy plus an optional
merge resolver. -/
structure ConflictResolution (α : Type) where
  strategy : Strategy
  resolver : Option (SyncableEntity α → SyncableEntity α → SyncableEntity α)

/-- `SyncManager.resolveConflict`, translated clause by clause.  With no
registered strategy the default is last-writer-wins on `updatedAt`
(`local.updatedAt > remote.updatedAt ? local : remote`); `manual` returns
`{ ...local, isLocal: true }`. -/
def resolveConflict {α : Type} (localE remote : SyncableEntity α)
    (strategy : Option (ConflictResolution α)) : SyncableEntity α :=
  match strategy with
  | none => if localE.updatedAt > remote.updatedAt then localE else remote
  | some s =>
    match s.strategy with
    | .localS => localE
    | .remoteS => remote
    | .merge =>
      match s.resolver with
      | some f => f localE remote
      | none => localE
    | .manual => { localE with isLocal := some true }

/-- The event tags a `SyncManager` call can emit (`SyncEventType`). -/
inductive SyncEventType where
  | online | offline | syncStarted | syncCompleted | syncFailed
  | conflictDetected | entitySynced
  deriving Repr, DecidableEq

/-- Observable outcome of one `syncEntity` call: the returned entity, the
arguments of every `saveRemote` invocation (in order, a throwing invocation
included), and the emitted events. -/
structure SyncEntityResult (α : Type) where
  entity : SyncableEntity α
  saved : List (SyncableEntity α)
  events : List SyncEventType
  deriving Repr, DecidableEq

/-- `SyncManager.syncEntity`, translated line by line.  `isOnline` is
`this.status.isOnline`, `strategies` is `this.conflictStrategies.get`,
`now` stands for `Date.now()`.  `fetchRemote`/`saveRemote` are the caller's
oracles; the surrounding `try { ... } catch { return { ...local, isLocal:
true } }` becomes the `.error` branches.  `local.syncedAt || 0` becomes
`Option.getD _ 0` (`0 || 0 = 0` in JS, so the encodings agree). -/
def syncEntity {α : Type} (strategies : String → Option (ConflictResolution α))
    (isOnline : Bool) (entityType : String) (localE : SyncableEntity α)
    (fetchRemote : Except String (Option (SyncableEntity α)))
    (saveRemote : SyncableEntity α → Except String (SyncableEntity α))
    (now : Nat) : SyncEntityResult α :=
  if !isOnline then
    { entity := { localE with isLocal := some true }, saved := [], events := [] }
  else
    match fetchRemote with
    | .error _ =>
      { entity := { localE with isLocal := some true }, saved := [], events := [] }
    | .ok none =>
      match saveRemote localE with
      | .error _ =>
        { entity := { localE with isLocal := some true }, saved := [localE], events := [] }
      | .ok saved =>
        { entity := { saved with syncedAt := some now, isLocal := some false },
          saved := [localE], events := [.entitySynced] }
    | .ok (some remote) =>
      if remote.updatedAt > localE.syncedAt.getD 0 ∧
          localE.updatedAt > localE.syncedAt.getD 0 then
        let resolved := resolveConflict localE remote (strategies entityType)
        match saveRemote resolved with
        | .error _ =>
          { entity := { localE with isLocal := some true }, saved := [resolved],
            events := [.conflictDetected] }
        | .ok saved =>
          { entity := { saved with syncedAt := some now, isLocal := some false },
            saved := [resolved], events := [.conflictDetected] }
      else if localE.updatedAt > remote.updatedAt then
        match saveRemote localE with
        | .error _ =>
          { entity := { localE with isLocal := some true }, saved := [localE], events := [] }
        | .ok saved =>
          { entity := { saved with syncedAt := some now, isLocal := some false },
            saved := [localE], events := [.entitySynced] }
      else
        { entity := { remote with syncedAt := some now, isLocal := some false },
          saved := [], events := [] }

/-- The slice of `SyncManager` state that `setOnline` touches. -/
structure SMState where
  isOnline : Bool
  queueOnline : Bool
  deriving Repr, DecidableEq

/-- `SyncManager.setOnline`, translated line by line: remembers
`wasOffline`, updates its own flag, forwards to the queue, then — with no
transition check — emits `online` whenever the argument is `true` and
`offline` whenever it is `false`; `sync()` is triggered only when
`online ∧ wasOffline`.  Returns (new state, emitted events, whether
`sync()` was triggered). -/
def smSetOnline (s : SMState) (online : Bool) : SMState × List SyncEventType × Bool :=
  let wasOffline := !s.isOnline
  let s' : SMState := { isOnline := online, queueOnline := online }
  if online then
    (s', [.online], wasOffline)
  else
    (s', [.offline], false)

/-! ## Offline mutation queue (`offline-queue.ts`) -/

/-- The four values of `QueuedAction.status`. -/
inductive ActionStatus where
  | pending | processing | failed | completed
  deriving Repr, DecidableEq

/-- `QueuedAction` from `offline-queue.ts`, with payload type `π`. -/
structure QueuedAction (π : Type) where
  id : String
  type : String
  payload : π
  timestamp : Nat
  retryCount : Nat
  maxRetries : Nat
  status : ActionStatus
  error : Option String
  deriving Repr, DecidableEq

/-- A handler table: `this.handlers.get(type)`.  A handler is an oracle on
the action it is invoked with; `.error` is a rejected promise. -/
abbrev Handlers (π ρ : Type) := String → Option (QueuedAction π → Except String ρ)

/-- The body of the `processQueue` loop for one pending action, translated
line by line: no handler → `failed` with the explanatory message (handler
not invoked); otherwise the action is set to `processing` and the handler
invoked with it; success → `completed`; failure → `retryCount` is
incremented and the action becomes `failed` (recording the error) when
`retryCount >= maxRetries`, else `pending` again.  The second component
lists the handler invocation this step performed (the action's id), empty
when no handler was invoked. -/
def processAction {π ρ : Type} (handlers : Handlers π ρ) (a : QueuedAction π) :
    QueuedAction π × List String :=
  match handlers a.type with
  | none =>
    ({ a with status := .failed,
              error := some ("No handler for action type: " ++ a.type) }, [])
  | some h =>
    match h { a with status := .processing } with
    | .ok _ => ({ a with status := .completed }, [a.id])
    | .error e =>
      let rc := a.retryCount + 1
      if rc ≥ a.maxRetries then
        ({ a with retryCount := rc, status := .failed, error := some e }, [a.id])
      else
        ({ a with retryCount := rc, status := .pending }, [a.id])

/-- One `processQueue` pass over the queue array (the part inside the
`try`): the loop runs over the snapshot of currently-`pending` actions in
array (insertion) order, sequentially; each iteration rewrites that action
in place; afterwards `completed` actions are dropped.  Non-pending actions
are untouched.  Returns the new queue and the handler-invocation trace in
order. -/
def processPass {π ρ : Type} (handlers : Handlers π ρ) (q : List (QueuedAction π)) :
    List (QueuedAction π) × List String :=
  let stepped := q.map fun a =>
    if a.status = .pending then processAction handlers a else (a, [])
  ((stepped.map Prod.fst).filter (fun a => a.status ≠ .completed),
   (stepped.map Prod.snd).flatten)

/-- The queue after `n` repeated `processQueue` passes. -/
def passes {π ρ : Type} (handlers : Handlers π ρ) (q : List (QueuedAction π)) :
    Nat → List (QueuedAction π)
  | 0 => q
  | n + 1 => (processPass handlers (passes handlers q n)).1

/-- The handler-invocation trace of pass `n+1` (the pass run on `passes n`). -/
def traceAt {π ρ : Type} (handlers : Handlers π ρ) (q : List (QueuedAction π))
    (n : Nat) : List String :=
  (processPass handlers (passes handlers q n)).2

/-- `OfflineQueue.clearFailed`: removes all `failed` entries. -/
def clearFailed {π : Type} (q : List (QueuedAction π)) : List (QueuedAction π) :=
  q.filter fun a => a.status ≠ .failed

/-- `OfflineQueue.getQueue`: a copy of the queue array. -/
def getQueue {π : Type} (q : List (QueuedAction π)) : List (QueuedAction π) := q

/-- The `OfflineQueue` fields that drive processing: the queue array and the
`online` / `processing` flags. -/
structure QState (π : Type) where
  queue : List (QueuedAction π)
  online : Bool
  processing : Bool
  deriving Repr

/-- `OfflineQueue.processQueue` at the state level: a no-op returning no
trace when already processing or offline; otherwise it runs one pass (the
`processing` flag is set for the duration and reset in the `finally`, so it
is false again in the resulting state). -/
def processQueue {π ρ : Type} (handlers : Handlers π ρ) (s : QState π) :
    QState π × List String :=
  if s.processing || !s.online then (s, [])
  else
    let (q', tr) := processPass handlers s.queue
    ({ s with queue := q', processing := false }, tr)

/-- `OfflineQueue.enqueue` (the in-memory part): throws `Queue is full` at
capacity, otherwise appends a fresh `pending` action with `retryCount = 0`
and the configured `maxRetries`, then — if online and not processing —
triggers a processing pass.  The generated id and `Date.now()` are the
`id`/`now` arguments. -/
def enqueue {π ρ : Type} (handlers : Handlers π ρ) (maxQueueSize : Nat)
    (maxRetries : Nat) (s : QState π) (id ty : String) (payload : π) (now : Nat) :
    Except String (QState π × List String) :=
  if s.queue.length ≥ maxQueueSize then .error "Queue is full"
  else
    let a : QueuedAction π :=
      { id := id, type := ty, payload := payload, timestamp := now,
        retryCount := 0, maxRetries := maxRetries, status := .pending, error := none }
    let s' : QState π := { s with queue := s.queue ++ [a] }
    if s'.online && !s'.processing then .ok (processQueue handlers s')
    else .ok (s', [])

/-- `OfflineQueue.setOnline`: updates the flag and, on a false→true
transition, triggers a processing pass. -/
def qSetOnline {π ρ : Type} (handlers : Handlers π ρ) (s : QState π)
    (online : Bool) : QState π × List String :=
  let wasOffline := !s.online
  let s' : QState π := { s with online := online }
  if online && wasOffline then processQueue handlers s'
  else (s', [])

/-! ## Cache manager (`manager.ts`)

The in-process tier `memoryCache : Map<string, CacheEntry>` is modelled as
an association list in insertion order, which is exactly the iteration
order of a JavaScript `Map`.  `Map.set` of an existing key overwrites in
place; of a fresh key it appends. -/

/-- `CacheEntry` from `manager.ts`. -/
structure CacheEntry (α : Type) where
  data : α
  timestamp : Nat
  ttl : Nat
  key : String
  deriving Repr, DecidableEq

/-- `CacheOptions` (after the constructor's defaulting). -/
structure CacheOptions where
  defaultTtl : Nat
  maxEntries : Nat
  cleanupInterval : Nat
  deriving Repr, DecidableEq

/-- The in-process tier: entries in `Map` iteration (insertion) order. -/
abbrev Tier (α : Type) := List (String × CacheEntry α)

/-- JavaScript `Map.get`. -/
def mapGet {β : Type} (m : List (String × β)) (k : String) : Option β :=
  (m.find? fun p => p.1 = k).map Prod.snd

/-- JavaScript `Map.set`: overwrite in place when the key is present,
append otherwise. -/
def mapSet {β : Type} (m : List (String × β)) (k : String) (v : β) :
    List (String × β) :=
  if m.any (fun p => p.1 = k) then
    m.map fun p => if p.1 = k then (k, v) else p
  else m ++ [(k, v)]

/-- JavaScript `Map.delete`. -/
def mapDelete {β : Type} (m : List (String × β)) (k : String) :
    List (String × β) :=
  m.filter fun p => p.1 ≠ k

/-- `CacheManager.isExpired`: `Date.now() - entry.timestamp > entry.ttl`.
With `Nat` truncated subtraction a future-dated entry gives `0 > ttl =
false`, matching the negative JS difference. -/
def isExpired {α : Type} (now : Nat) (e : CacheEntry α) : Bool :=
  now - e.timestamp > e.ttl

/-- `CacheManager.storageKey`. -/
def storageKey (k : String) : String := "cache:" ++ k

/-- One iteration of the `evictOldest` loop: keep the candidate with the
strictly smaller timestamp (`entry.timestamp < oldestTime`; the initial
`oldestTime = Infinity` is the `none` case). -/
def olderOf {α : Type} (acc : Option (String × CacheEntry α))
    (p : String × CacheEntry α) : Option (String × CacheEntry α) :=
  match acc with
  | none => some p
  | some q => if p.2.timestamp < q.2.timestamp then some p else some q

/-- The loop of `CacheManager.evictOldest`: the first entry (in iteration
order) attaining the minimal timestamp; `none` on an empty map. -/
def oldestEntry {α : Type} (m : Tier α) : Option (String × CacheEntry α) :=
  m.foldl olderOf none

/-- `CacheManager.evictOldest`: delete the oldest-written entry — guarded
by `if (oldestKey)`, a JS truthiness test on a `string | null`, so the
deletion is skipped not only when the map is empty (`null`) but also when
the oldest entry's key is the empty string (`""` is falsy). -/
def evictOldest {α : Type} (m : Tier α) : Tier α :=
  match oldestEntry m with
  | some p => if p.1 = "" then m else mapDelete m p.1
  | none => m

/-- `CacheManager.set` restricted to the in-process tier (the persistent
write is fire-and-forget and its failure swallowed): build the entry with
`timestamp = Date.now()` and the given or default ttl, evict one entry when
`size >= maxEntries`, then insert. -/
def cacheSet {α : Type} (opts : CacheOptions) (m : Tier α) (k : String)
    (d : α) (ttl : Option Nat) (now : Nat) : Tier α :=
  let entry : CacheEntry α :=
    { data := d, timestamp := now, ttl := ttl.getD opts.defaultTtl, key := k }
  let m' := if m.length ≥ opts.maxEntries then evictOldest m else m
  mapSet m' k entry

/-- `CacheManager.get`: the in-process tier first (hit iff present and
unexpired); on miss, the persistent tier (`storage` is the store oracle,
already folded over the `try/catch`: a read error behaves as `none`); an
unexpired stored entry is promoted into the in-process tier.  Returns the
value (or `none`) and the possibly-grown tier. -/
def cacheGet {α : Type} (m : Tier α)
    (storage : String → Option (CacheEntry α)) (k : String) (now : Nat) :
    Option α × Tier α :=
  match mapGet m k with
  | some e =>
    if !isExpired now e then (some e.data, m)
    else
      match storage (storageKey k) with
      | some stored =>
        if !isExpired now stored then (some stored.data, mapSet m k stored)
        else (none, m)
      | none => (none, m)
  | none =>
    match storage (storageKey k) with
    | some stored =>
      if !isExpired now stored then (some stored.data, mapSet m k stored)
      else (none, m)
    | none => (none, m)

/-- `CacheManager.delete` restricted to the in-process tier. -/
def cacheDelete {α : Type} (m : Tier α) (k : String) : Tier α :=
  mapDelete m k

/-- `CacheManager.clear` restricted to the in-process tier. -/
def cacheClear {α : Type} (_ : Tier α) : Tier α := []

/-- One run of the background cleanup timer: remove expired entries from
the in-process tier. -/
def cacheCleanup {α : Type} (m : Tier α) (now : Nat) : Tier α :=
  m.filter fun p => !isExpired now p.2

/-! ## Realtime transport client (`types/index.ts`, WebSocket part) -/

/-- `wsStatus` values. -/
inductive WSStatus where
  | disconnected | connecting | connected | reconnecting | error
  deriving Repr, DecidableEq

/-- The transport-relevant configuration (`retryAttempts`, `retryDelay`). -/
structure WSConfig where
  retryAttempts : Nat
  retryDelay : Nat
  deriving Repr, DecidableEq

/-- The `JarvisApiClient` fields driving the connection lifecycle:
`wsStatus`, `wsReconnectAttempts`, whether `this.ws` is non-null
(`wsPresent`) and open (`wsOpen`), whether a socket we closed still has its
`onclose` handler due to fire (`pendingClose` — `disconnect()` nulls
`this.ws` but the close event of the underlying socket still fires), the
number of `setTimeout(() => this.connect(), …)` timers currently scheduled,
and the events emitted so far (oldest first). -/
structure WSClient where
  wsStatus : WSStatus
  wsReconnectAttempts : Nat
  wsPresent : Bool
  wsOpen : Bool
  pendingClose : Bool
  scheduledConnects : Nat
  emitted : List String
  deriving Repr, DecidableEq

/-- `JarvisApiClient.attemptReconnect`, translated line by line: when the
attempt counter has reached `retryAttempts`, emit `reconnect_failed` and
stop; otherwise go to `reconnecting`, bump the counter and schedule a
`connect()` via `setTimeout`. -/
def attemptReconnect (cfg : WSConfig) (s : WSClient) : WSClient :=
  if s.wsReconnectAttempts ≥ cfg.retryAttempts then
    { s with emitted := s.emitted ++ ["reconnect_failed"] }
  else
    { s with wsStatus := .reconnecting,
             wsReconnectAttempts := s.wsReconnectAttempts + 1,
             scheduledConnects := s.scheduledConnects + 1 }

/-- The lifecycle events acting on a `WSClient`: the public calls
`connect()`/`disconnect()`, the socket callbacks `onopen`/`onclose`, and
the firing of a scheduled reconnect timer. -/
inductive WSEvent where
  | connectCall | openFires | closeFires | disconnectCall | reconnectTimerFires
  deriving Repr, DecidableEq

/-- One step of the connection lifecycle, each branch translated from
`types/index.ts`:
* `connect()` — returns immediately when the socket is already open, else
  status `connecting` and a new socket (handlers attached);
* `onopen` — status `connected`, attempt counter reset, emits the
  connection event;
* `onclose` — status `disconnected`, emits the connection event, then
  **unconditionally** calls `attemptReconnect` (there is no flag
  distinguishing an explicit `disconnect()` from a dropped connection);
* `disconnect()` — `ws.close()` (so a close event is now pending on the old
  socket), `ws = null`, status `disconnected`;
* a scheduled reconnect timer firing — consumes the timer and runs
  `connect()`. -/
def wsStep (cfg : WSConfig) (s : WSClient) : WSEvent → WSClient
  | .connectCall =>
    if s.wsPresent && s.wsOpen then s
    else { s with wsStatus := .connecting, wsPresent := true, wsOpen := false }
  | .openFires =>
    { s with wsStatus := .connected, wsReconnectAttempts := 0, wsOpen := true,
             emitted := s.emitted ++ ["connection:connected"] }
  | .closeFires =>
    attemptReconnect cfg
      { s with wsStatus := .disconnected, wsOpen := false, pendingClose := false,
               emitted := s.emitted ++ ["connection:disconnected"] }
  | .disconnectCall =>
    if s.wsPresent then
      { s with wsPresent := false, wsOpen := false, pendingClose := true,
               wsStatus := .disconnected }
    else { s with wsStatus := .disconnected }
  | .reconnectTimerFires =>
    let s' := { s with scheduledConnects := s.scheduledConnects - 1 }
    if s'.wsPresent && s'.wsOpen then s'
    else { s' with wsStatus := .connecting, wsPresent := true, wsOpen := false }

/-- A parsed incoming message (`WebSocketMessage`): `correlationId` is
optional on the wire. -/
structure WSMessage (π : Type) where
  type : String
  payload : π
  correlationId : Option String
  deriving Repr, DecidableEq

/-- What the `onmessage` handler does with one message: settle a pending
`sendAndWait` request (identified by its correlation id) with the payload,
or dispatch the message to the subscribers of its type.  The two are
mutually exclusive by construction — the handler `return`s after
resolving. -/
inductive MsgOutcome (π : Type) where
  | resolved (correlationId : String) (payload : π)
  | dispatched (type : String) (payload : π)
  deriving Repr, DecidableEq

/-- The `onmessage` handler, translated line by line.  `pending` is the key
set of `this.pendingRequests` (the correlation ids of in-flight
`sendAndWait` calls).  `message.correlationId &&
this.pendingRequests.has(message.correlationId)` — the truthiness test
makes an empty-string id fall through to dispatch, hence the `cid ≠ ""`
conjunct.  On a match the pending entry is deleted and resolved with
`message.payload`, and the handler returns without emitting; otherwise the
message is emitted to the subscribers of `message.type`. -/
def onMessage {π : Type} (pending : List String) (msg : WSMessage π) :
    MsgOutcome π × List String :=
  match msg.correlationId with
  | some cid =>
    if cid ≠ "" ∧ cid ∈ pending then
      (.resolved cid msg.payload, pending.erase cid)
    else (.dispatched msg.type msg.payload, pending)
  | none => (.dispatched msg.type msg.payload, pending)

/-! ## Theorems: sync coordinator claims -/

/-- C1: with a registered `manual` strategy and a detected conflict,
`syncEntity` is claimed to keep the local entity flagged `isLocal = true`
and not to invoke `saveRemote` with the resolved value.  Evaluating the
embedded code at the failing input (local `updatedAt = 10, syncedAt = 5`,
remote `updatedAt = 9`, an echoing `saveRemote`) shows the code instead
invokes `saveRemote` with the manually-resolved entity and returns it
tagged `isLocal = false`: `resolveConflict` marks the entity
(`{ ...local, isLocal: true }`, matching its own comment), but `syncEntity`
then persists it on the uniform conflict path and overwrites the flag. -/
theorem syncEntity_manual_persists_and_unflags :
    syncEntity (fun _ => some ⟨Strategy.manual, none⟩) true "task"
        (⟨"e1", 10, some 5, none, (0 : Nat)⟩ : SyncableEntity Nat)
        (.ok (some ⟨"e1", 9, none, none, 1⟩)) Except.ok 20 =
      { entity := ⟨"e1", 10, some 20, some false, 0⟩,
        saved := [⟨"e1", 10, some 5, some true, 0⟩],
        events := [.conflictDetected] } := by
  rfl

/-- C3: with no strategy registered for the type, local
`updatedAt = 10, syncedAt = 5` and remote `updatedAt = 8`, an online
`syncEntity` resolves in favour of the local entity (last-writer-wins
default) and pushes it: `saveRemote` is invoked with exactly the local
value, and with an echoing remote the returned entity carries the local
data, tagged `syncedAt = now, isLocal = false`. -/
theorem syncEntity_lww_default_pushes_local {α : Type} (ty i ir : String)
    (il ilr : Option Bool) (sr : Option Nat) (d dr : α) (now : Nat) :
    syncEntity (fun _ => none) true ty ⟨i, 10, some 5, il, d⟩
        (.ok (some ⟨ir, 8, sr, ilr, dr⟩)) Except.ok now =
      { entity := ⟨i, 10, some now, some false, d⟩,
        saved := [⟨i, 10, some 5, il, d⟩],
        events := [.conflictDetected] } := by
  rfl

/-- C7, counterexample: a `setOnline(true)` call on a coordinator that is
already online (so no transition happens) still emits an `online` event,
refuting the claim that a call passing the already-held connectivity value
emits no online/offline event. -/
theorem smSetOnline_redundant_call_emits :
    smSetOnline ⟨true, true⟩ true = (⟨true, true⟩, [.online], false) := by
  rfl

/-- C7, amended: `setOnline` emits exactly one event on every call —
`online` whenever the argument is `true`, `offline` whenever it is `false`,
regardless of the previously held value; only the `sync()` trigger is
restricted to the offline→online transition. -/
theorem smSetOnline_emits_unconditionally (s : SMState) (b : Bool) :
    smSetOnline s b =
      (⟨b, b⟩, [if b then SyncEventType.online else SyncEventType.offline],
       b && !s.isOnline) := by
  cases b <;> rfl

/-- C8: for an online `syncEntity` call, a rejation of `fetchRemote`, or of
any `saveRemote` invocation the call performs, is not raised to the caller:
the call returns the input local entity tagged `isLocal = true` (the
embedding is total — `syncEntity` always returns a `SyncEntityResult`, the
`catch` being part of the translated code). -/
theorem syncEntity_network_error_falls_back {α : Type}
    (strategies : String → Option (ConflictResolution α)) (ty : String)
    (localE : SyncableEntity α)
    (fetchRemote : Except String (Option (SyncableEntity α)))
    (saveRemote : SyncableEntity α → Except String (SyncableEntity α))
    (now : Nat) :
    (∀ e, fetchRemote = .error e →
      syncEntity strategies true ty localE fetchRemote saveRemote now =
        ⟨{ localE with isLocal := some true }, [], []⟩) ∧
    (∀ x e,
      x ∈ (syncEntity strategies true ty localE fetchRemote saveRemote now).saved →
      saveRemote x = .error e →
      (syncEntity strategies true ty localE fetchRemote saveRemote now).entity =
        { localE with isLocal := some true }) := by
  constructor
  · rintro e rfl
    rfl
  · intro x e hx hs
    cases hf : fetchRemote with
    | error e' =>
      simp [syncEntity, hf]
    | ok ro =>
      cases ro with
      | none =>
        cases hsl : saveRemote localE with
        | error e' =>
          simp only [syncEntity, Bool.not_true, Bool.false_eq_true, if_false, hf, hsl] at hx ⊢
        | ok saved =>
          simp only [syncEntity, Bool.not_true, Bool.false_eq_true, if_false, hf, hsl] at hx ⊢
          simp at hx
          subst hx
          rw [hsl] at hs
          exact absurd hs (by simp)
      | some remote =>
        by_cases hc : remote.updatedAt > localE.syncedAt.getD 0 ∧
            localE.updatedAt > localE.syncedAt.getD 0
        · cases hsr : saveRemote (resolveConflict localE remote (strategies ty)) with
          | error e' =>
            simp only [syncEntity, Bool.not_true, Bool.false_eq_true, if_false, hf,
              if_pos hc, hsr] at hx ⊢
          | ok saved =>
            simp only [syncEntity, Bool.not_true, Bool.false_eq_true, if_false, hf,
              if_pos hc, hsr] at hx ⊢
            simp at hx
            subst hx
            rw [hsr] at hs
            exact absurd hs (by simp)
        · by_cases hp : localE.updatedAt > remote.updatedAt
          · cases hsl : saveRemote localE with
            | error e' =>
              simp only [syncEntity, Bool.not_true, Bool.false_eq_true, if_false, hf,
                if_neg hc, if_pos hp, hsl] at hx ⊢
            | ok saved =>
              simp only [syncEntity, Bool.not_true, Bool.false_eq_true, if_false, hf,
                if_neg hc, if_pos hp, hsl] at hx ⊢
              simp at hx
              subst hx
              rw [hsl] at hs
              exact absurd hs (by simp)
          · simp only [syncEntity, Bool.not_true, Bool.false_eq_true, if_false, hf,
              if_neg hc, if_neg hp] at hx ⊢
            simp at hx

/-- C8 witness: the fallback theorem applied at a concrete failing
`fetchRemote`. -/
theorem syncEntity_network_error_falls_back_witness :
    syncEntity (fun _ => none) true "t"
        (⟨"e", 1, none, none, (0 : Nat)⟩ : SyncableEntity Nat)
        (.error "net") Except.ok 5 =
      ⟨⟨"e", 1, none, some true, 0⟩, [], []⟩ :=
  (syncEntity_network_error_falls_back (fun _ => none) "t"
      ⟨"e", 1, none, none, 0⟩ (.error "net") Except.ok 5).1 "net" rfl

/-! ## Theorems: transport client claims -/

/-- C2: the claim (and the spec) say an explicit `disconnect()` suppresses
auto-reconnect.  Evaluating the embedded code at the failing input — a
connected client with `wsReconnectAttempts = 0` and `retryAttempts = 3`
that calls `disconnect()`, after which the close event of the torn-down
socket fires — shows the `onclose` handler unconditionally runs
`attemptReconnect`, moving the client to `reconnecting` and scheduling a
`connect()` call: the code has no flag distinguishing an explicit teardown
from a dropped connection, so a reconnection is initiated. -/
theorem disconnect_then_close_schedules_reconnect :
    (wsStep ⟨3, 1000⟩ (⟨.connected, 0, true, true, false, 0, []⟩ : WSClient)
        .disconnectCall).pendingClose = true ∧
    (wsStep ⟨3, 1000⟩
        (wsStep ⟨3, 1000⟩ (⟨.connected, 0, true, true, false, 0, []⟩ : WSClient)
          .disconnectCall) .closeFires).scheduledConnects = 1 ∧
    (wsStep ⟨3, 1000⟩
        (wsStep ⟨3, 1000⟩ (⟨.connected, 0, true, true, false, 0, []⟩ : WSClient)
          .disconnectCall) .closeFires).wsStatus = .reconnecting := by
  decide

/-- C6: the `onmessage` handler settles a pending `sendAndWait` request
exactly when the message carries that request's correlation id (pending ids
are `crypto.randomUUID()` outputs, hence nonempty — the `cid ≠ ""`
hypothesis): the request is resolved with the message payload, removed from
the pending table, and the message is not also dispatched (the outcome is a
single `MsgOutcome` constructor).  A message whose correlation id is not
that of a pending request `p` never resolves `p` and leaves `p` pending;
and a message matching no pending request at all is dispatched to the
subscribers of its type. -/
theorem onMessage_correlation {π : Type} (pending : List String)
    (msg : WSMessage π) :
    (∀ cid, msg.correlationId = some cid → cid ≠ "" → cid ∈ pending →
      onMessage pending msg = (.resolved cid msg.payload, pending.erase cid)) ∧
    (∀ p, p ∈ pending → msg.correlationId ≠ some p →
      (∀ x, (onMessage pending msg).1 ≠ .resolved p x) ∧
      p ∈ (onMessage pending msg).2) ∧
    ((∀ cid, msg.correlationId = some cid → ¬(cid ≠ "" ∧ cid ∈ pending)) →
      (onMessage pending msg).1 = .dispatched msg.type msg.payload) := by
  refine ⟨?_, ?_, ?_⟩
  · intro cid hcid hne hmem
    simp [onMessage, hcid, if_pos (And.intro hne hmem)]
  · intro p hp hne
    cases hcid : msg.correlationId with
    | none =>
      exact ⟨fun x => by simp [onMessage, hcid], by simp [onMessage, hcid, hp]⟩
    | some cid =>
      have hpc : p ≠ cid := by
        intro h'
        exact hne (by rw [hcid, h'])
      by_cases h : cid ≠ "" ∧ cid ∈ pending
      · refine ⟨fun x => ?_, ?_⟩
        · simp only [onMessage, hcid, if_pos h]
          intro hcon
          exact hpc (MsgOutcome.resolved.injEq .. ▸ hcon).1.symm
        · simp only [onMessage, hcid, if_pos h]
          exact (List.mem_erase_of_ne hpc).mpr hp
      · exact ⟨fun x => by simp [onMessage, hcid, if_neg h],
          by simp [onMessage, hcid, if_neg h, hp]⟩
  · intro hnomatch
    cases hcid : msg.correlationId with
    | none => simp [onMessage, hcid]
    | some cid => simp [onMessage, hcid, if_neg (hnomatch cid hcid)]

/-- C6 witness: the correlation theorem applied at a concrete pending table
and message — a matching message resolves the request; the same table with
a correlation-id-free message of the same type dispatches instead. -/
theorem onMessage_correlation_witness :
    onMessage ["req-1"] (⟨"ping", (0 : Nat), some "req-1"⟩ : WSMessage Nat) =
      (.resolved "req-1" 0, []) ∧
    (onMessage ["req-1"] (⟨"ping", (0 : Nat), none⟩ : WSMessage Nat)).1 =
      .dispatched "ping" 0 :=
  ⟨(onMessage_correlation ["req-1"] ⟨"ping", 0, some "req-1"⟩).1 "req-1" rfl
      (by decide) (by decide),
   (onMessage_correlation ["req-1"] ⟨"ping", 0, none⟩).2.2
      (fun cid h => by simp at h)⟩

/-! ## Cache helper lemmas -/

/-- What the `evictOldest` fold computes, for any accumulator: a result is
the accumulator or a list element, and is `≤` both in timestamp. -/
theorem foldl_olderOf_spec {α : Type} (m : Tier α) :
    ∀ (acc : Option (String × CacheEntry α)) (p : String × CacheEntry α),
      m.foldl olderOf acc = some p →
      (acc = some p ∨ p ∈ m) ∧
      (∀ q, acc = some q → p.2.timestamp ≤ q.2.timestamp) ∧
      (∀ q ∈ m, p.2.timestamp ≤ q.2.timestamp) := by
  induction m with
  | nil =>
    intro acc p h
    simp only [List.foldl_nil] at h
    refine ⟨Or.inl h, ?_, by simp⟩
    intro q hq
    rw [h] at hq
    injection hq with hq
    exact le_of_eq (congrArg (fun r => r.2.timestamp) hq)
  | cons a t ih =>
    intro acc p h
    rw [List.foldl_cons] at h
    obtain ⟨h1, h2, h3⟩ := ih (olderOf acc a) p h
    cases acc with
    | none =>
      have hstep : olderOf none a = some a := rfl
      rw [hstep] at h1 h2
      refine ⟨?_, by simp, ?_⟩
      · rcases h1 with h1 | h1
        · injection h1 with h1
          exact Or.inr (h1 ▸ List.mem_cons_self a t)
        · exact Or.inr (List.mem_cons_of_mem a h1)
      · intro q hq
        rcases List.mem_cons.mp hq with rfl | hq
        · exact h2 _ rfl
        · exact h3 q hq
    | some b =>
      by_cases hlt : a.2.timestamp < b.2.timestamp
      · have hstep : olderOf (some b) a = some a := by simp [olderOf, hlt]
        rw [hstep] at h1 h2
        refine ⟨?_, ?_, ?_⟩
        · rcases h1 with h1 | h1
          · injection h1 with h1
            exact Or.inr (h1 ▸ List.mem_cons_self a t)
          · exact Or.inr (List.mem_cons_of_mem a h1)
        · intro q hq
          injection hq with hq
          subst hq
          exact le_trans (h2 a rfl) (le_of_lt hlt)
        · intro q hq
          rcases List.mem_cons.mp hq with rfl | hq
          · exact h2 _ rfl
          · exact h3 q hq
      · have hstep : olderOf (some b) a = some b := by simp [olderOf, hlt]
        rw [hstep] at h1 h2
        refine ⟨?_, ?_, ?_⟩
        · rcases h1 with h1 | h1
          · exact Or.inl h1
          · exact Or.inr (List.mem_cons_of_mem a h1)
        · intro q hq
          injection hq with hq
          subst hq
          exact h2 b rfl
        · intro q hq
          rcases List.mem_cons.mp hq with rfl | hq
          · exact le_trans (h2 b rfl) (Nat.le_of_not_lt hlt)
          · exact h3 q hq

/-- The entry `evictOldest` selects is an entry of the map. -/
theorem oldestEntry_mem {α : Type} {m : Tier α} {p : String × CacheEntry α}
    (h : oldestEntry m = some p) : p ∈ m := by
  rcases (foldl_olderOf_spec m none p h).1 with h1 | h1
  · cases h1
  · exact h1

/-- The entry `evictOldest` selects has the minimal write timestamp. -/
theorem oldestEntry_min {α : Type} {m : Tier α} {p : String × CacheEntry α}
    (h : oldestEntry m = some p) : ∀ q ∈ m, p.2.timestamp ≤ q.2.timestamp :=
  (foldl_olderOf_spec m none p h).2.2

/-- On a nonempty map, `evictOldest` selects some entry. -/
theorem oldestEntry_of_ne_nil {α : Type} {m : Tier α} (h : m ≠ []) :
    ∃ p, oldestEntry m = some p := by
  have : ∀ (t : Tier α) (b : String × CacheEntry α),
      ∃ p, t.foldl olderOf (some b) = some p := by
    intro t
    induction t with
    | nil => exact fun b => ⟨b, rfl⟩
    | cons a t ih =>
      intro b
      rw [List.foldl_cons]
      by_cases hlt : a.2.timestamp < b.2.timestamp
      · rw [show olderOf (some b) a = some a by simp [olderOf, hlt]]
        exact ih a
      · rw [show olderOf (some b) a = some b by simp [olderOf, hlt]]
        exact ih b
  cases m with
  | nil => exact absurd rfl h
  | cons a t =>
    rw [oldestEntry, List.foldl_cons]
    exact this t a

/-- `Map.get` finds the value of a member pair when keys are distinct. -/
theorem mapGet_of_mem {β : Type} {m : List (String × β)}
    (hk : (m.map Prod.fst).Nodup) {k : String} {v : β} (h : (k, v) ∈ m) :
    mapGet m k = some v := by
  induction m with
  | nil => cases h
  | cons a t ih =>
    rw [List.map_cons, List.nodup_cons] at hk
    rcases List.mem_cons.mp h with rfl | h
    · rw [mapGet, List.find?_cons_of_pos _ (by simp)]
      rfl
    · have hne : a.1 ≠ k := by
        intro he
        exact hk.1 (he ▸ List.mem_map_of_mem Prod.fst h)
      rw [mapGet, List.find?_cons_of_neg _ (by simp [hne])]
      exact ih hk.2 h

/-- `Map.get` misses when no pair has the key. -/
theorem mapGet_eq_none {β : Type} {m : List (String × β)} {k : String}
    (h : ∀ p ∈ m, p.1 ≠ k) : mapGet m k = none := by
  rw [mapGet, List.find?_eq_none.mpr]
  · rfl
  · intro p hp
    simp [h p hp]

/-- Two member pairs with the same key are equal when keys are distinct. -/
theorem eq_of_fst_eq {β : Type} {m : List (String × β)}
    (hk : (m.map Prod.fst).Nodup) {p q : String × β}
    (hp : p ∈ m) (hq : q ∈ m) (h : p.1 = q.1) : p = q := by
  have h1 : mapGet m p.1 = some p.2 := mapGet_of_mem hk hp
  have h2 : mapGet m q.1 = some q.2 := mapGet_of_mem hk hq
  rw [h, h2] at h1
  injection h1 with h1
  exact Prod.ext h h1.symm

/-- `Map.delete` of a member key removes exactly one pair (distinct keys). -/
theorem mapDelete_length {β : Type} {m : List (String × β)}
    (hk : (m.map Prod.fst).Nodup) {p : String × β} (hp : p ∈ m) :
    (mapDelete m p.1).length + 1 = m.length := by
  induction m with
  | nil => cases hp
  | cons a t ih =>
    rw [List.map_cons, List.nodup_cons] at hk
    rcases List.mem_cons.mp hp with rfl | hp
    · have ht : mapDelete (p :: t) p.1 = t := by
        rw [mapDelete, List.filter_cons]
        rw [if_neg (by simp)]
        exact List.filter_eq_self.mpr fun q hq => by
          have hne : q.1 ≠ p.1 := fun he =>
            hk.1 (he ▸ List.mem_map_of_mem Prod.fst hq)
          simp [hne]
      rw [ht, List.length_cons]
    · have hne : a.1 ≠ p.1 := by
        intro he
        exact hk.1 (he ▸ List.mem_map_of_mem Prod.fst hp)
      have ht := ih hk.2 hp
      rw [mapDelete, List.filter_cons, if_pos (by simp [hne]), List.length_cons,
        List.length_cons]
      rw [mapDelete] at ht
      omega

/-- `Map.delete` of a member key shortens the list (no key hypothesis). -/
theorem mapDelete_length_lt {β : Type} {m : List (String × β)}
    {p : String × β} (hp : p ∈ m) : (mapDelete m p.1).length < m.length := by
  induction m with
  | nil => cases hp
  | cons a t ih =>
    rcases List.mem_cons.mp hp with rfl | hp
    · rw [mapDelete, List.filter_cons, if_neg (by simp)]
      exact Nat.lt_succ_of_le (List.length_filter_le _ t)
    · rw [mapDelete, List.filter_cons]
      by_cases ha : a.1 ≠ p.1
      · rw [if_pos (by simp [ha])]
        exact Nat.succ_lt_succ (ih hp)
      · rw [if_neg (by simp [ha])]
        exact Nat.lt_succ_of_lt (ih hp)

/-- `Map.set` grows the list by at most one pair. -/
theorem mapSet_length_le {β : Type} (m : List (String × β)) (k : String)
    (v : β) : (mapSet m k v).length ≤ m.length + 1 := by
  rw [mapSet]
  by_cases h : m.any (fun p => p.1 = k)
  · rw [if_pos h, List.length_map]
    exact Nat.le_succ _
  · rw [if_neg h, List.length_append]
    exact le_refl _

/-- A hit in the left part of a map survives appending. -/
theorem mapGet_append_left {β : Type} {m₁ : List (String × β)}
    (m₂ : List (String × β)) {k : String} {v : β}
    (h : mapGet m₁ k = some v) : mapGet (m₁ ++ m₂) k = some v := by
  induction m₁ with
  | nil => simp [mapGet] at h
  | cons a t ih =>
    by_cases ha : a.1 = k
    · rw [mapGet, List.find?_cons_of_pos _ (by simp [ha])] at h
      rw [List.cons_append, mapGet, List.find?_cons_of_pos _ (by simp [ha])]
      exact h
    · rw [mapGet, List.find?_cons_of_neg _ (by simp [ha])] at h
      rw [List.cons_append, mapGet, List.find?_cons_of_neg _ (by simp [ha])]
      exact ih h

/-- A pair of `Map.set`'s result either carries the inserted key or was
already in the map. -/
theorem mapSet_fst_mem {β : Type} {m : List (String × β)} {k : String}
    {v : β} {q : String × β} (hq : q ∈ mapSet m k v) : q.1 = k ∨ q ∈ m := by
  rw [mapSet] at hq
  by_cases h : m.any (fun p => p.1 = k)
  · rw [if_pos h] at hq
    obtain ⟨p, hp, he⟩ := List.mem_map.mp hq
    by_cases hpk : p.1 = k
    · rw [if_pos hpk] at he
      exact Or.inl (by rw [← he])
    · rw [if_neg hpk] at he
      exact Or.inr (he ▸ hp)
  · rw [if_neg h] at hq
    rcases List.mem_append.mp hq with hq | hq
    · exact Or.inr hq
    · rw [List.mem_singleton] at hq
      exact Or.inl (by rw [hq])

/-- `evictOldest` only removes entries: its result is contained in the
input tier. -/
theorem evictOldest_subset {α : Type} {m : Tier α} {q : String × CacheEntry α}
    (hq : q ∈ evictOldest m) : q ∈ m := by
  cases hold : oldestEntry m with
  | none =>
    have he : evictOldest m = m := by simp only [evictOldest, hold]
    rwa [he] at hq
  | some p =>
    by_cases hp : p.1 = ""
    · have he : evictOldest m = m := by simp only [evictOldest, hold, if_pos hp]
      rwa [he] at hq
    · have he : evictOldest m = mapDelete m p.1 := by
        simp only [evictOldest, hold, if_neg hp]
      rw [he] at hq
      exact List.mem_of_mem_filter hq

/-! ## Theorems: cache manager claims -/

/-- C9, counterexample: at a tier holding exactly `maxEntries = 2` entries
whose smallest-timestamp entry is keyed by the empty string, a `set` of a
fresh key evicts nothing — `evictOldest`'s `if (oldestKey)` truthiness
guard skips the falsy `""` — so the tier grows to 3 entries and the
smallest-timestamp entry is still present, refuting "evicts exactly one
entry — the one with the smallest write timestamp". -/
theorem cacheSet_empty_key_skips_eviction :
    (cacheSet ⟨100, 2, 60⟩
        ([("", ⟨10, 0, 100, ""⟩), ("b", ⟨20, 5, 100, "b"⟩)] : Tier Nat)
        "c" 7 none 30).length = 3 ∧
    mapGet (cacheSet ⟨100, 2, 60⟩
        ([("", ⟨10, 0, 100, ""⟩), ("b", ⟨20, 5, 100, "b"⟩)] : Tier Nat)
        "c" 7 none 30) "" = some ⟨10, 0, 100, ""⟩ := by
  exact ⟨rfl, rfl⟩

/-- C9, amended: with the in-process tier holding exactly `maxEntries`
entries (`maxEntries ≥ 1`, keys distinct as in a `Map`), a `set` of a
fresh key evicts exactly one entry — the one `evictOldest` selects, which
has the smallest write timestamp among the current entries — **provided
that entry's key is nonempty** (the `if (oldestKey)` truthiness guard
skips deletion of an empty-string key, see the counterexample); every
other previously cached entry that is unexpired remains retrievable via
`get` afterwards (for any storage oracle: the hit is served from the
in-process tier). -/
theorem cacheSet_eviction_oldest {α : Type} (opts : CacheOptions) (m : Tier α)
    (k : String) (d : α) (ttl : Option Nat) (now : Nat)
    (pmin : String × CacheEntry α)
    (hold : oldestEntry m = some pmin)
    (hne0 : pmin.1 ≠ "")
    (hpos : 1 ≤ opts.maxEntries) (hcap : m.length = opts.maxEntries)
    (hfresh : ∀ p ∈ m, p.1 ≠ k)
    (hkeys : (m.map Prod.fst).Nodup) :
    pmin ∈ m ∧
    (∀ q ∈ m, pmin.2.timestamp ≤ q.2.timestamp) ∧
    (cacheSet opts m k d ttl now).length = opts.maxEntries ∧
    mapGet (cacheSet opts m k d ttl now) pmin.1 = none ∧
    ∀ p ∈ m, p ≠ pmin →
      ∀ (now' : Nat) (storage : String → Option (CacheEntry α)),
        isExpired now' p.2 = false →
        (cacheGet (cacheSet opts m k d ttl now) storage p.1 now').1 =
          some p.2.data := by
  have hmem := oldestEntry_mem hold
  have hmin := oldestEntry_min hold
  have hge : m.length ≥ opts.maxEntries := le_of_eq hcap.symm
  have hev : evictOldest m = mapDelete m pmin.1 := by
    simp only [evictOldest, hold, if_neg hne0]
  have hfresh' : ∀ p ∈ mapDelete m pmin.1, p.1 ≠ k := fun p hp =>
    hfresh p (List.mem_of_mem_filter hp)
  have hnotany : ¬((mapDelete m pmin.1).any (fun p => p.1 = k) = true) := by
    intro hx
    rw [List.any_eq_true] at hx
    obtain ⟨x, hx1, hx2⟩ := hx
    exact hfresh' x hx1 (by simpa using hx2)
  have hset : cacheSet opts m k d ttl now =
      mapDelete m pmin.1 ++ [(k, ⟨d, now, ttl.getD opts.defaultTtl, k⟩)] := by
    simp only [cacheSet, if_pos hge, hev, mapSet, if_neg hnotany]
  have hdel := mapDelete_length hkeys hmem
  refine ⟨hmem, hmin, ?_, ?_, ?_⟩
  · rw [hset, List.length_append, List.length_singleton]
    omega
  · apply mapGet_eq_none
    intro p hp
    rw [hset] at hp
    rcases List.mem_append.mp hp with hp | hp
    · exact of_decide_eq_true (List.mem_filter.mp hp).2
    · rw [List.mem_singleton] at hp
      rw [hp]
      exact fun he => hfresh pmin hmem he.symm
  · intro p hp hne now' storage hexp
    have hp1 : p.1 ≠ pmin.1 := fun he => hne (eq_of_fst_eq hkeys hp hmem he)
    have hpd : p ∈ mapDelete m pmin.1 :=
      List.mem_filter.mpr ⟨hp, by simp [hp1]⟩
    have hkd : ((mapDelete m pmin.1).map Prod.fst).Nodup :=
      hkeys.sublist ((List.filter_sublist m).map Prod.fst)
    have hgd : mapGet (mapDelete m pmin.1) p.1 = some p.2 :=
      mapGet_of_mem hkd hpd
    have hg : mapGet (cacheSet opts m k d ttl now) p.1 = some p.2 := by
      rw [hset]
      exact mapGet_append_left _ hgd
    simp only [cacheGet, hg, hexp, Bool.not_false, if_true]

/-- C9 witness: the eviction theorem at a concrete two-entry tier at
capacity 2 — inserting a third key evicts the entry written at time 0,
keeps the entry written at time 5 retrievable, and leaves the tier at
capacity. -/
theorem cacheSet_eviction_oldest_witness :
    ("a", (⟨10, 0, 100, "a"⟩ : CacheEntry Nat)) ∈
        ([("a", ⟨10, 0, 100, "a"⟩), ("b", ⟨20, 5, 100, "b"⟩)] : Tier Nat) ∧
    (cacheSet ⟨100, 2, 60⟩
        ([("a", ⟨10, 0, 100, "a"⟩), ("b", ⟨20, 5, 100, "b"⟩)] : Tier Nat)
        "c" 7 none 30).length = 2 ∧
    mapGet (cacheSet ⟨100, 2, 60⟩
        ([("a", ⟨10, 0, 100, "a"⟩), ("b", ⟨20, 5, 100, "b"⟩)] : Tier Nat)
        "c" 7 none 30) "a" = none ∧
    (cacheGet (cacheSet ⟨100, 2, 60⟩
        ([("a", ⟨10, 0, 100, "a"⟩), ("b", ⟨20, 5, 100, "b"⟩)] : Tier Nat)
        "c" 7 none 30) (fun _ => none) "b" 30).1 = some 20 := by
  have h := cacheSet_eviction_oldest ⟨100, 2, 60⟩
    ([("a", ⟨10, 0, 100, "a"⟩), ("b", ⟨20, 5, 100, "b"⟩)] : Tier Nat)
    "c" 7 none 30 ("a", ⟨10, 0, 100, "a"⟩) rfl (by decide) (by decide)
    (by decide) (by decide) (by decide)
  exact ⟨h.1, h.2.2.1, h.2.2.2.1,
    h.2.2.2.2 ("b", ⟨20, 5, 100, "b"⟩) (by decide) (by decide) 30
      (fun _ => none) rfl⟩

/-- C10, counterexample: the bound `size ≤ maxEntries` is not an invariant
of every operation.  With `maxEntries = 1`, a `set` from the empty tier
followed by a `get` of a key held (unexpired) by the persistent tier
promotes the stored entry into the in-process tier with no capacity check,
leaving 2 entries. -/
theorem cacheGet_promotion_exceeds_max :
    (cacheGet
        (cacheSet ⟨1000, 1, 60000⟩ ([] : Tier Nat) "a" 0 none 0)
        (fun s => if s = "cache:b" then some ⟨7, 0, 1000, "b"⟩ else none)
        "b" 0).2.length = 2 ∧
    (⟨1000, 1, 60000⟩ : CacheOptions).maxEntries = 1 := by
  exact ⟨rfl, rfl⟩

/-- C10, amended: for `maxEntries ≥ 1`, on a tier within the bound whose
keys are all nonempty, `set` with a nonempty key, `delete`, `clear` and
the background cleanup each preserve both `size ≤ maxEntries` (a `set` at
or above capacity evicts before inserting) and the all-keys-nonempty
condition, so the bound is an invariant of histories made of those
operations starting from the empty tier.  It is not an invariant of every
operation: `get` can grow the tier past `maxEntries` by promoting a
persistent-tier entry without eviction (see the counterexample), and a
`set` of the empty-string key breaks the key condition — `evictOldest`'s
truthiness guard then skips eviction whenever that entry is the oldest. -/
theorem cache_bound_preserved {α : Type} (opts : CacheOptions) (m : Tier α)
    (hpos : 1 ≤ opts.maxEntries) (hm : m.length ≤ opts.maxEntries)
    (hk : ∀ p ∈ m, p.1 ≠ "") :
    (∀ (k : String) (d : α) (ttl : Option Nat) (now : Nat), k ≠ "" →
      (cacheSet opts m k d ttl now).length ≤ opts.maxEntries ∧
      ∀ p ∈ cacheSet opts m k d ttl now, p.1 ≠ "") ∧
    (∀ k, (cacheDelete m k).length ≤ opts.maxEntries ∧
      ∀ p ∈ cacheDelete m k, p.1 ≠ "") ∧
    ((cacheClear m).length ≤ opts.maxEntries ∧
      ∀ p ∈ cacheClear m, p.1 ≠ "") ∧
    (∀ now, (cacheCleanup m now).length ≤ opts.maxEntries ∧
      ∀ p ∈ cacheCleanup m now, p.1 ≠ "") := by
  refine ⟨?_, ?_, ?_, ?_⟩
  · intro k d ttl now hk0
    have hkeysOut : ∀ p ∈ cacheSet opts m k d ttl now, p.1 ≠ "" := by
      intro p hp
      have hp' : p ∈ mapSet (if m.length ≥ opts.maxEntries then evictOldest m
          else m) k ⟨d, now, ttl.getD opts.defaultTtl, k⟩ := hp
      rcases mapSet_fst_mem hp' with h | h
      · rw [h]
        exact hk0
      · by_cases hge : m.length ≥ opts.maxEntries
        · rw [if_pos hge] at h
          exact hk p (evictOldest_subset h)
        · rw [if_neg hge] at h
          exact hk p h
    refine ⟨?_, hkeysOut⟩
    by_cases hge : m.length ≥ opts.maxEntries
    · have hne : m ≠ [] := by
        intro h0
        rw [h0] at hge
        simp at hge
        omega
      obtain ⟨pmin, hold⟩ := oldestEntry_of_ne_nil hne
      have hlt := mapDelete_length_lt (oldestEntry_mem hold)
      have hne0 : pmin.1 ≠ "" := hk pmin (oldestEntry_mem hold)
      have hev : evictOldest m = mapDelete m pmin.1 := by
        simp only [evictOldest, hold, if_neg hne0]
      have hle := mapSet_length_le (mapDelete m pmin.1) k
        (⟨d, now, ttl.getD opts.defaultTtl, k⟩ : CacheEntry α)
      have hcs : cacheSet opts m k d ttl now =
          mapSet (mapDelete m pmin.1) k ⟨d, now, ttl.getD opts.defaultTtl, k⟩ := by
        simp only [cacheSet, if_pos hge, hev]
      rw [hcs]
      omega
    · have hle := mapSet_length_le m k
        (⟨d, now, ttl.getD opts.defaultTtl, k⟩ : CacheEntry α)
      have hcs : cacheSet opts m k d ttl now =
          mapSet m k ⟨d, now, ttl.getD opts.defaultTtl, k⟩ := by
        simp only [cacheSet, if_neg hge]
      rw [hcs]
      omega
  · intro k
    exact ⟨le_trans (List.length_filter_le _ m) hm,
      fun p hp => hk p (List.mem_of_mem_filter hp)⟩
  · exact ⟨le_trans (Nat.zero_le _) hm, fun p hp => absurd hp (List.not_mem_nil p)⟩
  · intro now
    exact ⟨le_trans (List.length_filter_le _ m) hm,
      fun p hp => hk p (List.mem_of_mem_filter hp)⟩

/-- C10 witness: the preservation theorem applied at a concrete
nonempty-keyed tier at capacity — the insert evicts, the bound holds, and
the result's keys are still nonempty. -/
theorem cache_bound_preserved_witness :
    (cacheSet ⟨100, 2, 60⟩
        ([("a", ⟨1, 0, 100, "a"⟩), ("b", ⟨2, 1, 100, "b"⟩)] : Tier Nat)
        "c" 5 none 9).length ≤ 2 ∧
    ∀ p ∈ cacheSet ⟨100, 2, 60⟩
        ([("a", ⟨1, 0, 100, "a"⟩), ("b", ⟨2, 1, 100, "b"⟩)] : Tier Nat)
        "c" 5 none 9, p.1 ≠ "" :=
  (cache_bound_preserved ⟨100, 2, 60⟩
      ([("a", ⟨1, 0, 100, "a"⟩), ("b", ⟨2, 1, 100, "b"⟩)] : Tier Nat)
      (by decide) (by decide) (by decide)).1 "c" 5 none 9 (by decide)

/-! ## Queue helper lemmas -/

/-- One loop iteration invokes the handler (exactly once) whenever one is
registered for the action's type, whatever its result. -/
theorem processAction_trace_of_handler {π ρ : Type} (handlers : Handlers π ρ)
    (a : QueuedAction π) {f : QueuedAction π → Except String ρ}
    (hf : handlers a.type = some f) :
    (processAction handlers a).2 = [a.id] := by
  simp only [processAction, hf]
  cases hr : f { a with status := ActionStatus.processing } with
  | ok v => simp [hr]
  | error e =>
    simp only [hr]
    split <;> rfl

/-- A pass over a queue of pending actions that all have registered
handlers invokes the handlers in insertion order, one per action,
regardless of the actions' types and of the handler results. -/
theorem processPass_trace {π ρ : Type} (handlers : Handlers π ρ)
    (q : List (QueuedAction π))
    (h : ∀ a ∈ q, a.status = .pending ∧ ∃ f, handlers a.type = some f) :
    (processPass handlers q).2 = q.map (fun a => a.id) := by
  induction q with
  | nil => rfl
  | cons a t ih =>
    have ha := h a (List.mem_cons_self a t)
    obtain ⟨f, hf⟩ := ha.2
    have ht := ih fun b hb => h b (List.mem_cons_of_mem a hb)
    simp only [processPass, List.map_cons, List.flatten_cons] at ht ⊢
    rw [if_pos ha.1, processAction_trace_of_handler handlers a hf, ht]
    rfl

/-! ## Theorems: offline queue claims -/

/-- C5: actions A, B, C enqueued in that order while offline (A and C of
type `tx`, B of type `ty`, both types having registered handlers, the
queue under capacity) sit in the queue untouched; going online runs one
pass that invokes the handlers sequentially in insertion order
A, B, C — never grouped or reordered by type, whatever the handler
results. -/
theorem queue_insertion_order {π ρ : Type} (handlers : Handlers π ρ)
    (maxQ mr : Nat) (tx ty : String)
    (fx fy : QueuedAction π → Except String ρ)
    (hx : handlers tx = some fx) (hy : handlers ty = some fy)
    (hq : 3 ≤ maxQ) (ia ib ic : String) (pa pb pc : π) (t1 t2 t3 : Nat) :
    enqueue handlers maxQ mr ⟨[], false, false⟩ ia tx pa t1 =
      .ok (⟨[⟨ia, tx, pa, t1, 0, mr, .pending, none⟩], false, false⟩, []) ∧
    enqueue handlers maxQ mr
        ⟨[⟨ia, tx, pa, t1, 0, mr, .pending, none⟩], false, false⟩ ib ty pb t2 =
      .ok (⟨[⟨ia, tx, pa, t1, 0, mr, .pending, none⟩,
             ⟨ib, ty, pb, t2, 0, mr, .pending, none⟩], false, false⟩, []) ∧
    enqueue handlers maxQ mr
        ⟨[⟨ia, tx, pa, t1, 0, mr, .pending, none⟩,
          ⟨ib, ty, pb, t2, 0, mr, .pending, none⟩], false, false⟩ ic tx pc t3 =
      .ok (⟨[⟨ia, tx, pa, t1, 0, mr, .pending, none⟩,
             ⟨ib, ty, pb, t2, 0, mr, .pending, none⟩,
             ⟨ic, tx, pc, t3, 0, mr, .pending, none⟩], false, false⟩, []) ∧
    (qSetOnline handlers
        ⟨[⟨ia, tx, pa, t1, 0, mr, .pending, none⟩,
          ⟨ib, ty, pb, t2, 0, mr, .pending, none⟩,
          ⟨ic, tx, pc, t3, 0, mr, .pending, none⟩], false, false⟩ true).2 =
      [ia, ib, ic] := by
  have h0 : ¬((0 : Nat) ≥ maxQ) := by omega
  have h1 : ¬((1 : Nat) ≥ maxQ) := by omega
  have h2 : ¬((2 : Nat) ≥ maxQ) := by omega
  refine ⟨?_, ?_, ?_, ?_⟩
  · simp [enqueue, h0]
  · simp [enqueue, h1]
  · simp [enqueue, h2]
  · have htr := processPass_trace handlers
      [⟨ia, tx, pa, t1, 0, mr, .pending, none⟩,
       ⟨ib, ty, pb, t2, 0, mr, .pending, none⟩,
       ⟨ic, tx, pc, t3, 0, mr, .pending, none⟩]
      (by
        intro a ha
        simp only [List.mem_cons, List.not_mem_nil, or_false] at ha
        rcases ha with rfl | rfl | rfl
        · exact ⟨rfl, fx, hx⟩
        · exact ⟨rfl, fy, hy⟩
        · exact ⟨rfl, fx, hx⟩)
    simp only [qSetOnline, processQueue, Bool.not_false, Bool.and_self, if_true,
      Bool.or_self, Bool.false_or]
    simp only [List.map_cons, List.map_nil] at htr
    simpa using htr

/-- C5 witness: the ordering theorem at a concrete handler table with two
types and concrete actions. -/
theorem queue_insertion_order_witness :
    (qSetOnline
        (fun t => if t = "x" ∨ t = "y" then
          some (fun _ => (Except.ok 0 : Except String Nat)) else none)
        ⟨[⟨"A", "x", (0 : Nat), 1, 0, 3, .pending, none⟩,
          ⟨"B", "y", 0, 2, 0, 3, .pending, none⟩,
          ⟨"C", "x", 0, 3, 0, 3, .pending, none⟩], false, false⟩ true).2 =
      ["A", "B", "C"] :=
  (queue_insertion_order
    (fun t => if t = "x" ∨ t = "y" then
      some (fun _ => (Except.ok 0 : Except String Nat)) else none)
    10 3 "x" "y" (fun _ => Except.ok 0) (fun _ => Except.ok 0)
    (by simp) (by simp) (by omega)
    "A" "B" "C" 0 0 0 1 2 3).2.2.2

/-- C4, counterexample: the claim — Failed after exactly `maxRetries`
failed attempts, never fewer, never more — fails at `maxRetries = 0`: a
single pass over a pending `maxRetries = 0` action whose handler always
rejects still invokes the handler once (trace `["a1"]`, one delivery
attempt where the claim allows zero) and only then marks the action
Failed with `retryCount = 1 > maxRetries`. -/
theorem processQueue_attempt_despite_zero_maxRetries :
    processPass
        (fun t => if t = "x" then
          some (fun _ => (Except.error "boom" : Except String Nat)) else none)
        [(⟨"a1", "x", 0, 0, 0, 0, .pending, none⟩ : QueuedAction Nat)] =
      ([⟨"a1", "x", 0, 0, 1, 0, .failed, some "boom"⟩], ["a1"]) := by
  rfl

/-- C4, amended: for `maxRetries ≥ 1` (any smaller configuration still
costs one attempt, see the counterexample), an enqueued action whose
handler rejects on every invocation is attempted exactly once per pass
while pending: after `k < maxRetries` passes it is still Pending with
`retryCount = k` and the next pass makes one more attempt; the pass number
`maxRetries` makes the last attempt and marks it Failed with
`retryCount = maxRetries`; every later pass makes no attempt and leaves
the Failed entry in the queue (`getQueue` is the queue itself), and in
general no pass ever removes a Failed action; only `clearFailed` removes
it. -/
theorem queue_retry_exhaustion {π ρ : Type} (handlers : Handlers π ρ)
    (ty : String) (h : QueuedAction π → Except String ρ)
    (em : QueuedAction π → String)
    (hh : handlers ty = some h) (hfail : ∀ x, h x = .error (em x))
    (i : String) (p : π) (t m : Nat) (hm : 1 ≤ m) :
    (∀ k, k < m →
      passes handlers [⟨i, ty, p, t, 0, m, .pending, none⟩] k =
        [⟨i, ty, p, t, k, m, .pending, none⟩] ∧
      traceAt handlers [⟨i, ty, p, t, 0, m, .pending, none⟩] k = [i]) ∧
    (∀ n, m ≤ n →
      passes handlers [⟨i, ty, p, t, 0, m, .pending, none⟩] n =
        [⟨i, ty, p, t, m, m, .failed,
          some (em ⟨i, ty, p, t, m - 1, m, .processing, none⟩)⟩] ∧
      traceAt handlers [⟨i, ty, p, t, 0, m, .pending, none⟩] n = []) ∧
    (∀ (q : List (QueuedAction π)) (a : QueuedAction π), a ∈ q →
      a.status = .failed → a ∈ (processPass handlers q).1) ∧
    getQueue (clearFailed
      (passes handlers [⟨i, ty, p, t, 0, m, .pending, none⟩] m)) = [] := by
  have hstep : ∀ k : Nat,
      processPass handlers [⟨i, ty, p, t, k, m, .pending, none⟩] =
        (if k + 1 ≥ m then
          [⟨i, ty, p, t, k + 1, m, .failed,
            some (em ⟨i, ty, p, t, k, m, .processing, none⟩)⟩]
         else [⟨i, ty, p, t, k + 1, m, .pending, none⟩], [i]) := by
    intro k
    simp only [processPass, List.map_cons, List.map_nil, processAction, hh,
      hfail, List.flatten]
    by_cases hk : k + 1 ≥ m
    · rw [if_pos hk, if_pos hk]
      rfl
    · rw [if_neg hk, if_neg hk]
      rfl
  have hpendingAt : ∀ k, k < m →
      passes handlers [⟨i, ty, p, t, 0, m, .pending, none⟩] k =
        [⟨i, ty, p, t, k, m, .pending, none⟩] := by
    intro k
    induction k with
    | zero => intro _; rfl
    | succ k ih =>
      intro hk
      have hk' : k < m := Nat.lt_of_succ_lt hk
      show (processPass handlers
        (passes handlers [⟨i, ty, p, t, 0, m, .pending, none⟩] k)).1 = _
      rw [ih hk', hstep k, if_neg (by omega)]
  have hfailedAt : ∀ n, m ≤ n →
      passes handlers [⟨i, ty, p, t, 0, m, .pending, none⟩] n =
        [⟨i, ty, p, t, m, m, .failed,
          some (em ⟨i, ty, p, t, m - 1, m, .processing, none⟩)⟩] := by
    intro n hn
    induction n, hn using Nat.le_induction with
    | base =>
      obtain ⟨m', rfl⟩ : ∃ m', m = m' + 1 := ⟨m - 1, by omega⟩
      show (processPass handlers
        (passes handlers [⟨i, ty, p, t, 0, m' + 1, .pending, none⟩] m')).1 = _
      rw [hpendingAt m' (by omega), hstep m', if_pos (by omega)]
      simp
    | succ n hn ih =>
      show (processPass handlers
        (passes handlers [⟨i, ty, p, t, 0, m, .pending, none⟩] n)).1 = _
      rw [ih]
      rfl
  refine ⟨?_, ?_, ?_, ?_⟩
  · intro k hk
    refine ⟨hpendingAt k hk, ?_⟩
    rw [traceAt, hpendingAt k hk, hstep k]
  · intro n hn
    refine ⟨hfailedAt n hn, ?_⟩
    rw [traceAt, hfailedAt n hn]
    rfl
  · intro q a haq ha
    simp only [processPass]
    apply List.mem_filter.mpr
    refine ⟨?_, by simp [ha]⟩
    rw [List.map_map]
    refine List.mem_map.mpr ⟨a, haq, ?_⟩
    simp [ha]
  · rw [hfailedAt m (le_refl m)]
    rfl

/-- C4 witness: the amended theorem at a concrete always-rejecting
handler with `maxRetries = 2`: after pass 1 the action is Pending with one
attempt made; pass 2 makes the second and final attempt and marks it
Failed; pass 3 makes none and retains it; `clearFailed` then empties the
queue. -/
theorem queue_retry_exhaustion_witness :
    (passes
        (fun t => if t = "x" then
          some (fun _ => (Except.error "boom" : Except String Nat)) else none)
        [(⟨"a1", "x", 0, 0, 0, 2, .pending, none⟩ : QueuedAction Nat)] 1 =
      [⟨"a1", "x", 0, 0, 1, 2, .pending, none⟩]) ∧
    (passes
        (fun t => if t = "x" then
          some (fun _ => (Except.error "boom" : Except String Nat)) else none)
        [(⟨"a1", "x", 0, 0, 0, 2, .pending, none⟩ : QueuedAction Nat)] 3 =
      [⟨"a1", "x", 0, 0, 2, 2, .failed, some "boom"⟩]) ∧
    getQueue (clearFailed
      (passes
        (fun t => if t = "x" then
          some (fun _ => (Except.error "boom" : Except String Nat)) else none)
        [(⟨"a1", "x", 0, 0, 0, 2, .pending, none⟩ : QueuedAction Nat)] 2)) = [] := by
  have H := queue_retry_exhaustion
    (fun t => if t = "x" then
      some (fun _ => (Except.error "boom" : Except String Nat)) else none)
    "x" (fun _ => Except.error "boom") (fun _ => "boom") (by simp)
    (fun _ => rfl) "a1" 0 0 2 (by omega)
  exact ⟨(H.1 1 (by omega)).1, (H.2.1 3 (by omega)).1, H.2.2.2⟩

end Resilience
